import Mathlib

/-!
Verification of the sgl-router core against its specification.

The definitions below are a shallow embedding of the Rust sources
src/k8s_discovery.rs and src/server.rs: every definition mirrors the
corresponding Rust item (names kept where Lean allows), with Rust's
HashSet of URL strings modelled as a duplicate-free list (its Finset image
taken where the claims speak of sets), the HashMap of group
name to EndpointState modelled as a function from names to Option
EndpointState, and the mpsc command channel modelled as the list of
commands sent, in send order.
-/

namespace SglRouter

/-- Embeds enum DiscoveryCommand of k8s_discovery.rs: commands sent from
the discovery driver to the registry. -/
inductive DiscoveryCommand where
  | AddWorker (url : String)
  | RemoveWorker (url : String)
deriving DecidableEq, Repr

/-- Embeds struct EndpointPort (from k8s_openapi) as used by the driver:
an optional port name and an optional port number. -/
structure EndpointPort where
  name : Option String
  port : Option Int
deriving DecidableEq, Repr

/-- Embeds struct EndpointAddress (from k8s_openapi) as used by the driver:
an optional IP string. -/
structure EndpointAddress where
  ip : Option String
deriving DecidableEq, Repr

/-- Embeds struct EndpointSubset (from k8s_openapi) as used by the driver. -/
structure EndpointSubset where
  addresses : Option (List EndpointAddress)
  ports : Option (List EndpointPort)
deriving DecidableEq, Repr

/-- Embeds an Endpoints resource as used by the driver: its name
(name_any()) and its subsets. -/
structure Endpoints where
  name : String
  subsets : Option (List EndpointSubset)
deriving DecidableEq, Repr

/-- Embeds struct K8sDiscoveryConfig of k8s_discovery.rs. -/
structure K8sDiscoveryConfig where
  label_selector : String
  port_name : Option String
  protocol : String
  worker_path : String
deriving DecidableEq, Repr

/-- Embeds struct EndpointState of k8s_discovery.rs: the URL set a group
currently owns. The HashSet is modelled as a duplicate-free list; the
Finset view is taken with toFinset where the claims speak of sets. -/
structure EndpointState where
  urls : List String
deriving DecidableEq, Repr

/-- The known_endpoints map of start_k8s_discovery: group name to its
stored EndpointState (HashMap modelled as a function). -/
def KnownEndpoints : Type := String → Option EndpointState

/-- The fresh known_endpoints map a run of start_k8s_discovery begins
with (HashMap::new()). -/
def emptyKnown : KnownEndpoints := fun _ => none

/-- The URL set stored for a group: the urls field of its EndpointState,
empty when the group is absent (entry(name).or_insert(empty urls)). -/
def prevUrls (known : KnownEndpoints) (g : String) : List String :=
  match known g with
  | some st => st.urls
  | none => []

/-- Embeds Rust String::starts_with('/') on the worker path. -/
def startsWithSlash (s : String) : Bool :=
  match s.data with
  | [] => false
  | c :: _ => c == '/'

/-- Embeds the worker-path normalisation inside process_endpoints_change:
keep the path when it is empty or already starts with '/', otherwise
prepend '/'. -/
def normalizeWorkerPath (wp : String) : String :=
  if wp.isEmpty || startsWithSlash wp then wp else "/" ++ wp

/-- Embeds the format! call of process_endpoints_change rendering one
worker URL from the protocol, IP, port number and normalised path. -/
def renderWorkerUrl (cfg : K8sDiscoveryConfig) (ip : String) (portNum : Int) : String :=
  cfg.protocol ++ "://" ++ ip ++ ":" ++ toString portNum ++ normalizeWorkerPath cfg.worker_path

/-- Embeds the port-name filter of process_endpoints_change: with
port_name configured, a port passes only when it carries that exact
name (unnamed ports are skipped); with no port_name configured every
port passes. true means the loop does not continue past the port. -/
def portNameAccepts (cfgPortName : Option String) (portName : Option String) : Bool :=
  match cfgPortName with
  | none => true
  | some pn =>
    match portName with
    | none => false
    | some n => n == pn

/-- The subsets list iterated by process_endpoints_change (nothing when
the field is None). -/
def subsetsList (e : Endpoints) : List EndpointSubset :=
  match e.subsets with
  | none => []
  | some l => l

/-- The addresses list iterated for one subset (nothing when None). -/
def addressesList (s : EndpointSubset) : List EndpointAddress :=
  match s.addresses with
  | none => []
  | some l => l

/-- The ports list iterated for one subset (nothing when None). -/
def portsList (s : EndpointSubset) : List EndpointPort :=
  match s.ports with
  | none => []
  | some l => l

/-- The URLs one subset contributes in process_endpoints_change: for each
address with an IP, each port passing the name filter and carrying a
port number yields one rendered worker URL. -/
def subsetUrls (cfg : K8sDiscoveryConfig) (s : EndpointSubset) : List String :=
  (addressesList s).flatMap (fun a =>
    match a.ip with
    | none => []
    | some ip =>
      (portsList s).filterMap (fun port =>
        if portNameAccepts cfg.port_name port.name then
          match port.port with
          | none => none
          | some p => some (renderWorkerUrl cfg ip p)
        else none))

/-- The new_urls set computed by process_endpoints_change for an event:
every URL contributed by some subset, inserted into a HashSet (modelled
by deduplicating the collected list). -/
def computeNewUrls (cfg : K8sDiscoveryConfig) (e : Endpoints) : List String :=
  ((subsetsList e).flatMap (subsetUrls cfg)).dedup

/-- Embeds fn process_endpoints_change of k8s_discovery.rs: compute the
new URL set, diff it against the stored set, store the new set, and send
AddWorker for each newcomer then RemoveWorker for each departer. The
second component is the list of commands sent on the channel, in order. -/
def process_endpoints_change (cfg : K8sDiscoveryConfig) (e : Endpoints)
    (known : KnownEndpoints) : KnownEndpoints × List DiscoveryCommand :=
  let newUrls := computeNewUrls cfg e
  let old := prevUrls known e.name
  let urlsToAdd := newUrls.filter (fun u => decide (u ∉ old))
  let urlsToRemove := old.filter (fun u => decide (u ∉ newUrls))
  (fun n => if n = e.name then some ⟨newUrls⟩ else known n,
   urlsToAdd.map DiscoveryCommand.AddWorker
     ++ urlsToRemove.map DiscoveryCommand.RemoveWorker)

/-- Embeds enum WatchEvent (kube) as matched in start_k8s_discovery. -/
inductive WatchEvent where
  | Added (e : Endpoints)
  | Modified (e : Endpoints)
  | Deleted (e : Endpoints)
  | Bookmark
  | ErrorEvent (msg : String)
deriving DecidableEq, Repr

/-- Embeds the match on one watch event in the loop of
start_k8s_discovery: Added and Modified go to process_endpoints_change;
Deleted removes the group and sends RemoveWorker for each URL it owned;
Bookmark and in-stream error events send nothing. -/
def processWatchEvent (cfg : K8sDiscoveryConfig) (ev : WatchEvent)
    (known : KnownEndpoints) : KnownEndpoints × List DiscoveryCommand :=
  match ev with
  | WatchEvent.Added e => process_endpoints_change cfg e known
  | WatchEvent.Modified e => process_endpoints_change cfg e known
  | WatchEvent.Deleted e =>
    match known e.name with
    | some st =>
      (fun n => if n = e.name then none else known n,
       st.urls.map DiscoveryCommand.RemoveWorker)
    | none => (known, [])
  | WatchEvent.Bookmark => (known, [])
  | WatchEvent.ErrorEvent _ => (known, [])

/-- The event loop of start_k8s_discovery over a finite stream of watch
events: threads the known-endpoints state and concatenates the commands
sent, in send order. -/
def runDiscovery (cfg : K8sDiscoveryConfig) :
    List WatchEvent → KnownEndpoints → KnownEndpoints × List DiscoveryCommand
  | [], known => (known, [])
  | ev :: rest, known =>
    let step := processWatchEvent cfg ev known
    let tail := runDiscovery cfg rest step.1
    (tail.1, step.2 ++ tail.2)

/-- One run of fn start_k8s_discovery: known_endpoints is a local
variable initialised empty, so every run starts from the empty state. -/
def startDiscoveryRun (cfg : K8sDiscoveryConfig) (events : List WatchEvent) :
    KnownEndpoints × List DiscoveryCommand :=
  runDiscovery cfg events emptyKnown

/-- How one run of start_k8s_discovery terminates: the watch stream ended
cleanly (the function returns Ok) or errored (the function returns Err). -/
inductive DriverOutcome where
  | streamEnded
  | streamErrored (msg : String)
deriving DecidableEq, Repr

/-- Embeds the supervising loop of run_k8s_discovery_task: after a run
returns Err the task sleeps 10 seconds before restarting; after Ok the
loop restarts the driver immediately, with no sleep. -/
def supervisorBackoffSecs : DriverOutcome → Nat
  | DriverOutcome.streamEnded => 0
  | DriverOutcome.streamErrored _ => 10

/-- One driver run as seen by the supervisor: the watch events it
observed and how its stream terminated. -/
structure DriverRunInput where
  events : List WatchEvent
  outcome : DriverOutcome

/-- The supervising loop of run_k8s_discovery_task over a sequence of
driver runs: each run starts from the fresh empty state (known_endpoints
is local to start_k8s_discovery), and is followed by the backoff its
outcome dictates. Yields, per run, the commands sent and that backoff. -/
def superviseRuns (cfg : K8sDiscoveryConfig) (runs : List DriverRunInput) :
    List (List DiscoveryCommand × Nat) :=
  runs.map (fun r => ((startDiscoveryRun cfg r.events).2, supervisorBackoffSecs r.outcome))

/-- The registry-side interpretation of one command on a URL set:
AddWorker inserts the URL, RemoveWorker erases it. -/
def applyCommand (s : Finset String) : DiscoveryCommand → Finset String
  | DiscoveryCommand.AddWorker u => insert u s
  | DiscoveryCommand.RemoveWorker u => s.erase u

/-- Whether a command is an AddWorker. -/
def isAddCmd : DiscoveryCommand → Bool
  | DiscoveryCommand.AddWorker _ => true
  | DiscoveryCommand.RemoveWorker _ => false

/-- Whether a command is a RemoveWorker. -/
def isRemoveCmd : DiscoveryCommand → Bool
  | DiscoveryCommand.AddWorker _ => false
  | DiscoveryCommand.RemoveWorker _ => true

/-- A command list in which every AddWorker precedes every RemoveWorker:
after dropping the leading AddWorker block, only RemoveWorker remain. -/
def addsBeforeRemoves (l : List DiscoveryCommand) : Bool :=
  (l.dropWhile isAddCmd).all isRemoveCmd

/-- An HTTP response as produced by the admin handlers: status code and
body string. -/
structure HttpResponse where
  status : Nat
  body : String
deriving DecidableEq, Repr

/-- Embeds fn add_worker of server.rs. The query string is modelled as a
lookup function (web::Query as a map), the router's add operation as a
function to Except (Result of router.rs, whose body is outside the
embedded sources: the handler only dispatches on its result). Returns
the response together with the URL passed to the add operation (none
when add was not invoked). -/
def add_worker (query : String → Option String)
    (routerAdd : String → Except String String) :
    HttpResponse × Option String :=
  match query "url" with
  | none =>
    (⟨400, "Worker URL required. Provide 'url' query parameter"⟩, none)
  | some url =>
    match routerAdd url with
    | Except.ok message => (⟨200, message⟩, some url)
    | Except.error e => (⟨400, e⟩, some url)

/-- Embeds fn remove_worker of server.rs: with a url parameter the
router's remove operation is invoked (it returns no result) and the
handler answers 200; without one it answers 400 and does not invoke
remove. Returns the response together with the URL passed to remove
(none when remove was not invoked). -/
def remove_worker (query : String → Option String) :
    HttpResponse × Option String :=
  match query "url" with
  | none => (⟨400, ""⟩, none)
  | some url =>
    (⟨200, "Successfully removed worker: " ++ url⟩, some url)

/-- HTTP methods used by the registered routes. -/
inductive Method where
  | GET
  | POST
deriving DecidableEq, Repr

/-- The routes registered by fn startup of server.rs via .service(...),
in registration order, with the method and path from each handler's
attribute. -/
def registeredRoutes : List (Method × String) :=
  [(Method.POST, "/generate"),
   (Method.POST, "/v1/chat/completions"),
   (Method.POST, "/v1/completions"),
   (Method.GET, "/v1/models"),
   (Method.GET, "/get_model_info"),
   (Method.GET, "/health"),
   (Method.GET, "/health_generate"),
   (Method.GET, "/get_server_info"),
   (Method.POST, "/add_worker"),
   (Method.POST, "/remove_worker")]

/-- Whether a request's method and path match one of the registered
routes. -/
def matchesRoute (m : Method) (path : String) : Bool :=
  registeredRoutes.any (fun r => r.1 == m && r.2 == path)

/-- A request body as a stream of chunk results, as the payload stream of
sink_handler delivers them: each chunk is either bytes or a transport
error. -/
abbrev PayloadStream : Type := List (Except String String)

/-- The drain loop of sink_handler: reads chunks until the stream is
exhausted, stopping early after a chunk that is an error. Returns the
number of chunks consumed. -/
def drainPayload : PayloadStream → Nat
  | [] => 0
  | Except.ok _ :: rest => 1 + drainPayload rest
  | Except.error _ :: _ => 1

/-- Embeds fn sink_handler of server.rs: drain the payload, then answer
404 Not Found with an empty body. Returns the chunks consumed and the
response. -/
def sink_handler (payload : PayloadStream) : Nat × HttpResponse :=
  (drainPayload payload, ⟨404, ""⟩)

/-- Where the app built in fn startup dispatches a request: to the
handler of a registered route matching method and path, or to
sink_handler as the default service. -/
inductive RouteOutcome where
  | handler (route : Method × String)
  | sink (drained : Nat) (response : HttpResponse)
deriving DecidableEq, Repr

/-- Dispatch of one request by the app of fn startup: the first
registered route with matching method and path handles it; with no
match the default service sink_handler does. -/
def routeRequest (m : Method) (path : String) (payload : PayloadStream) :
    RouteOutcome :=
  match registeredRoutes.find? (fun r => r.1 == m && r.2 == path) with
  | some r => RouteOutcome.handler r
  | none =>
    RouteOutcome.sink (sink_handler payload).1 (sink_handler payload).2

/-- Embeds fn json_error_handler of server.rs: every JSON payload error
becomes ErrorPayloadTooLarge, i.e. a 413 response. -/
def json_error_handler (_err : String) : HttpResponse :=
  ⟨413, "Payload too large"⟩

/-- The two body-size limits the app of fn startup installs as app_data:
the JsonConfig limit and the PayloadConfig limit. -/
structure AppLimits where
  jsonLimit : Nat
  payloadLimit : Nat
deriving DecidableEq, Repr

/-- Embeds the app_data configuration of fn startup: both JsonConfig and
PayloadConfig get their limit set to max_payload_size. -/
def startupAppLimits (maxPayloadSize : Nat) : AppLimits :=
  { jsonLimit := maxPayloadSize, payloadLimit := maxPayloadSize }

/-- Modelled from the spec: the HTTP framework's enforcement of the two
body-size limits (actix-web JsonConfig and PayloadConfig internals are
an external collaborator, not part of the embedded sources). A JSON body
over the JSON limit raises a JSON payload error routed through the
configured error handler; a raw body over the payload limit is rejected
as 413 Payload Too Large. Returns some rejection response, or none when
the body is within bounds and the request proceeds. -/
def frameworkLimitCheck (limits : AppLimits) (isJson : Bool)
    (bodySize : Nat) : Option HttpResponse :=
  if isJson then
    if bodySize > limits.jsonLimit then
      some (json_error_handler "payload overflow")
    else none
  else
    if bodySize > limits.payloadLimit then some ⟨413, "Payload too large"⟩
    else none

/-! Helper lemmas about the discovery model. -/

theorem addWorker_injective : Function.Injective DiscoveryCommand.AddWorker :=
  fun a b h => by injection h

theorem removeWorker_injective : Function.Injective DiscoveryCommand.RemoveWorker :=
  fun a b h => by injection h

theorem computeNewUrls_nodup (cfg : K8sDiscoveryConfig) (e : Endpoints) :
    (computeNewUrls cfg e).Nodup :=
  List.nodup_dedup _

theorem count_filter_nodup (l : List String) (hl : l.Nodup)
    (p : String → Bool) (u : String) :
    (l.filter p).count u = if u ∈ l ∧ p u = true then 1 else 0 := by
  rw [List.count_eq_of_nodup (hl.filter p)]
  simp [List.mem_filter]

theorem foldl_insertList (l : List String) (s : Finset String) :
    l.foldl (fun acc u => insert u acc) s = s ∪ l.toFinset := by
  induction l generalizing s with
  | nil => simp
  | cons a t ih =>
    simp only [List.foldl_cons, ih, List.toFinset_cons]
    ext x
    simp only [Finset.mem_union, Finset.mem_insert, List.mem_toFinset]
    tauto

theorem foldl_eraseList (l : List String) (s : Finset String) :
    l.foldl (fun acc u => acc.erase u) s = s \ l.toFinset := by
  induction l generalizing s with
  | nil => simp
  | cons a t ih =>
    simp only [List.foldl_cons, ih, List.toFinset_cons]
    ext x
    simp only [Finset.mem_sdiff, Finset.mem_erase, Finset.mem_insert,
      List.mem_toFinset]
    tauto

theorem process_endpoints_change_snd (cfg : K8sDiscoveryConfig)
    (e : Endpoints) (known : KnownEndpoints) :
    (process_endpoints_change cfg e known).2 =
      ((computeNewUrls cfg e).filter
          (fun u => decide (u ∉ prevUrls known e.name))).map
          DiscoveryCommand.AddWorker
        ++ ((prevUrls known e.name).filter
          (fun u => decide (u ∉ computeNewUrls cfg e))).map
          DiscoveryCommand.RemoveWorker :=
  rfl

theorem process_endpoints_change_fst (cfg : K8sDiscoveryConfig)
    (e : Endpoints) (known : KnownEndpoints) (n : String) :
    (process_endpoints_change cfg e known).1 n =
      if n = e.name then some ⟨computeNewUrls cfg e⟩ else known n :=
  rfl

theorem prevUrls_after_change (cfg : K8sDiscoveryConfig) (e : Endpoints)
    (known : KnownEndpoints) :
    prevUrls (process_endpoints_change cfg e known).1 e.name =
      computeNewUrls cfg e := by
  rw [prevUrls, process_endpoints_change_fst, if_pos rfl]

theorem foldl_applyCommand_diff (old new : List String) :
    (((new.filter (fun u => decide (u ∉ old))).map DiscoveryCommand.AddWorker
      ++ (old.filter (fun u => decide (u ∉ new))).map
        DiscoveryCommand.RemoveWorker).foldl
        applyCommand old.toFinset) = new.toFinset := by
  rw [List.foldl_append, List.foldl_map, List.foldl_map]
  rw [show (fun x y => applyCommand x (DiscoveryCommand.AddWorker y))
      = fun acc u => insert u acc from rfl]
  rw [show (fun x y => applyCommand x (DiscoveryCommand.RemoveWorker y))
      = fun acc u => acc.erase u from rfl]
  rw [foldl_insertList, foldl_eraseList]
  ext x
  simp only [Finset.mem_sdiff, Finset.mem_union, List.mem_toFinset,
    List.mem_filter, decide_eq_true_eq]
  tauto

theorem count_add_cmd (cfg : K8sDiscoveryConfig) (e : Endpoints)
    (known : KnownEndpoints) (u : String) :
    (process_endpoints_change cfg e known).2.count
        (DiscoveryCommand.AddWorker u) =
      if u ∈ computeNewUrls cfg e ∧ u ∉ prevUrls known e.name then 1 else 0 := by
  rw [process_endpoints_change_snd, List.count_append]
  have h2 : (((prevUrls known e.name).filter
      (fun u => decide (u ∉ computeNewUrls cfg e))).map
      DiscoveryCommand.RemoveWorker).count (DiscoveryCommand.AddWorker u) = 0 :=
    List.count_eq_zero.mpr (by simp [List.mem_map])
  rw [h2, Nat.add_zero,
    List.count_map_of_injective _ _ addWorker_injective,
    count_filter_nodup _ (computeNewUrls_nodup cfg e)]
  simp

theorem count_remove_cmd (cfg : K8sDiscoveryConfig) (e : Endpoints)
    (known : KnownEndpoints) (hOld : (prevUrls known e.name).Nodup)
    (u : String) :
    (process_endpoints_change cfg e known).2.count
        (DiscoveryCommand.RemoveWorker u) =
      if u ∈ prevUrls known e.name ∧ u ∉ computeNewUrls cfg e then 1 else 0 := by
  rw [process_endpoints_change_snd, List.count_append]
  have h1 : (((computeNewUrls cfg e).filter
      (fun u => decide (u ∉ prevUrls known e.name))).map
      DiscoveryCommand.AddWorker).count (DiscoveryCommand.RemoveWorker u) = 0 :=
    List.count_eq_zero.mpr (by simp [List.mem_map])
  rw [h1, Nat.zero_add,
    List.count_map_of_injective _ _ removeWorker_injective,
    count_filter_nodup _ hOld]
  simp

theorem runDiscovery_nil (cfg : K8sDiscoveryConfig) (known : KnownEndpoints) :
    runDiscovery cfg [] known = (known, []) :=
  rfl

theorem runDiscovery_cons (cfg : K8sDiscoveryConfig) (ev : WatchEvent)
    (rest : List WatchEvent) (known : KnownEndpoints) :
    runDiscovery cfg (ev :: rest) known =
      ((runDiscovery cfg rest (processWatchEvent cfg ev known).1).1,
       (processWatchEvent cfg ev known).2
         ++ (runDiscovery cfg rest (processWatchEvent cfg ev known).1).2) :=
  rfl

/-- A full-state change event: an Added event when the flag is true, a
Modified event otherwise; start_k8s_discovery handles the two alike. -/
def fullStateEvent (b : Bool) (e : Endpoints) : WatchEvent :=
  if b then WatchEvent.Added e else WatchEvent.Modified e

theorem processWatchEvent_fullState (cfg : K8sDiscoveryConfig) (b : Bool)
    (e : Endpoints) (known : KnownEndpoints) :
    processWatchEvent cfg (fullStateEvent b e) known =
      process_endpoints_change cfg e known := by
  cases b <;> rfl

theorem runDiscovery_group (cfg : K8sDiscoveryConfig)
    (es : List (Bool × Endpoints)) (g : String) (known : KnownEndpoints)
    (hg : ∀ p ∈ es, (p : Bool × Endpoints).2.name = g) :
    prevUrls (runDiscovery cfg (es.map (fun p => fullStateEvent p.1 p.2)) known).1 g =
      (es.map (fun p => computeNewUrls cfg p.2)).getLastD (prevUrls known g) ∧
    (runDiscovery cfg (es.map (fun p => fullStateEvent p.1 p.2)) known).2.foldl
        applyCommand (prevUrls known g).toFinset =
      (prevUrls (runDiscovery cfg (es.map (fun p => fullStateEvent p.1 p.2)) known).1 g).toFinset := by
  induction es generalizing known with
  | nil => simp [runDiscovery_nil]
  | cons p es ih =>
    obtain ⟨b, e⟩ := p
    have hge : e.name = g := hg (b, e) (by simp)
    have hrest : ∀ x ∈ es, (x : Bool × Endpoints).2.name = g :=
      fun x hx => hg x (by simp [hx])
    have hstep := processWatchEvent_fullState cfg b e known
    have hprev : prevUrls (process_endpoints_change cfg e known).1 g =
        computeNewUrls cfg e := by
      rw [← hge]; exact prevUrls_after_change cfg e known
    have hih := ih (process_endpoints_change cfg e known).1 hrest
    constructor
    · rw [List.map_cons, runDiscovery_cons, hstep, List.map_cons,
        List.getLastD_cons, hih.1, hprev]
    · rw [List.map_cons, runDiscovery_cons, hstep, List.foldl_append]
      have hfold : (process_endpoints_change cfg e known).2.foldl
          applyCommand (prevUrls known g).toFinset =
          (computeNewUrls cfg e).toFinset := by
        rw [process_endpoints_change_snd, ← hge]
        exact foldl_applyCommand_diff (prevUrls known e.name)
          (computeNewUrls cfg e)
      rw [hfold,
        show (computeNewUrls cfg e).toFinset =
          (prevUrls (process_endpoints_change cfg e known).1 g).toFinset from
          by rw [hprev]]
      exact hih.2

theorem mem_process_cmds {cfg : K8sDiscoveryConfig} {e : Endpoints}
    {known : KnownEndpoints} {c : DiscoveryCommand}
    (hc : c ∈ (process_endpoints_change cfg e known).2) :
    (∃ u, (u ∈ computeNewUrls cfg e ∧ u ∉ prevUrls known e.name) ∧
      c = DiscoveryCommand.AddWorker u) ∨
    (∃ u, (u ∈ prevUrls known e.name ∧ u ∉ computeNewUrls cfg e) ∧
      c = DiscoveryCommand.RemoveWorker u) := by
  rw [process_endpoints_change_snd, List.mem_append, List.mem_map,
    List.mem_map] at hc
  rcases hc with ⟨u, hu, rfl⟩ | ⟨u, hu, rfl⟩
  · rw [List.mem_filter] at hu
    exact Or.inl ⟨u, ⟨hu.1, by simpa using hu.2⟩, rfl⟩
  · rw [List.mem_filter] at hu
    exact Or.inr ⟨u, ⟨hu.1, by simpa using hu.2⟩, rfl⟩

theorem addsBeforeRemoves_append (A R : List String) :
    addsBeforeRemoves (A.map DiscoveryCommand.AddWorker
      ++ R.map DiscoveryCommand.RemoveWorker) = true := by
  unfold addsBeforeRemoves
  induction A with
  | nil =>
    cases R with
    | nil => rfl
    | cons r rs =>
      simp only [List.map_nil, List.nil_append, List.map_cons,
        List.dropWhile_cons]
      rw [if_neg (by simp [isAddCmd])]
      simp [List.all_eq_true, List.mem_cons, List.mem_map, isRemoveCmd]
  | cons a A ih =>
    simp only [List.map_cons, List.cons_append, List.dropWhile_cons]
    rw [if_pos (by simp [isAddCmd])]
    exact ih

/-! Concrete instances used by the witness theorems. -/

/-- A concrete discovery configuration (the defaults of
K8sDiscoveryConfig::default with no environment overrides). -/
def cfgW : K8sDiscoveryConfig :=
  { label_selector := "sgl-role=llm-worker"
    port_name := none
    protocol := "http"
    worker_path := "" }

/-- A concrete endpoint group named g with one address and one unnamed
port 80. -/
def eW : Endpoints :=
  { name := "g"
    subsets := some [{ addresses := some [{ ip := some "10.0.0.1" }]
                       ports := some [{ name := none, port := some 80 }] }] }

/-- A second full-state view of group g: the address moved to
10.0.0.2. -/
def eW2 : Endpoints :=
  { name := "g"
    subsets := some [{ addresses := some [{ ip := some "10.0.0.2" }]
                       ports := some [{ name := none, port := some 80 }] }] }

/-- A concrete known-endpoints state: group g owns one URL. -/
def knownW : KnownEndpoints :=
  fun n => if n = "g" then some ⟨["http://old:1"]⟩ else none

/-- The stored state of group g in knownW. -/
def stW : EndpointState := ⟨["http://old:1"]⟩

/-- A concrete sequence of full-state change events for group g: an
Added event then a Modified event. -/
def esW : List (Bool × Endpoints) := [(true, eW), (false, eW2)]

/-- C1: processing a full-state change event (Added or Modified) emits
exactly one AddWorker per URL newly computed but not previously stored,
exactly one RemoveWorker per URL previously stored but no longer
computed, and nothing else; afterwards the stored EndpointState is the
newly computed URL set; and over any sequence of full-state events for
one group, applying all emitted commands to the initial stored set
yields exactly the last observed URL set. -/
theorem discovery_diff_correct :
    (∀ (cfg : K8sDiscoveryConfig) (e : Endpoints) (known : KnownEndpoints),
      (prevUrls known e.name).Nodup →
      (∀ u : String,
        (process_endpoints_change cfg e known).2.count
            (DiscoveryCommand.AddWorker u) =
          if u ∈ computeNewUrls cfg e ∧ u ∉ prevUrls known e.name then 1
          else 0) ∧
      (∀ u : String,
        (process_endpoints_change cfg e known).2.count
            (DiscoveryCommand.RemoveWorker u) =
          if u ∈ prevUrls known e.name ∧ u ∉ computeNewUrls cfg e then 1
          else 0) ∧
      (∀ c ∈ (process_endpoints_change cfg e known).2,
        (∃ u, (u ∈ computeNewUrls cfg e ∧ u ∉ prevUrls known e.name) ∧
          c = DiscoveryCommand.AddWorker u) ∨
        (∃ u, (u ∈ prevUrls known e.name ∧ u ∉ computeNewUrls cfg e) ∧
          c = DiscoveryCommand.RemoveWorker u)) ∧
      (process_endpoints_change cfg e known).1 e.name =
        some ⟨computeNewUrls cfg e⟩) ∧
    (∀ (cfg : K8sDiscoveryConfig) (es : List (Bool × Endpoints))
        (g : String) (known : KnownEndpoints),
      (∀ p ∈ es, (p : Bool × Endpoints).2.name = g) →
      prevUrls (runDiscovery cfg
          (es.map (fun p => fullStateEvent p.1 p.2)) known).1 g =
        (es.map (fun p => computeNewUrls cfg p.2)).getLastD
          (prevUrls known g) ∧
      (runDiscovery cfg (es.map (fun p => fullStateEvent p.1 p.2))
          known).2.foldl applyCommand (prevUrls known g).toFinset =
        (prevUrls (runDiscovery cfg
          (es.map (fun p => fullStateEvent p.1 p.2)) known).1 g).toFinset) := by
  constructor
  · intro cfg e known hOld
    refine ⟨count_add_cmd cfg e known, count_remove_cmd cfg e known hOld,
      fun c hc => mem_process_cmds hc, ?_⟩
    rw [process_endpoints_change_fst, if_pos rfl]
  · intro cfg es g known hg
    exact runDiscovery_group cfg es g known hg

/-- Witness for C1 at a concrete configuration, event pair and state. -/
theorem discovery_diff_correct_witness :
    (prevUrls knownW eW.name).Nodup ∧
    (∀ p ∈ esW, (p : Bool × Endpoints).2.name = "g") ∧
    ((∀ u : String,
        (process_endpoints_change cfgW eW knownW).2.count
            (DiscoveryCommand.AddWorker u) =
          if u ∈ computeNewUrls cfgW eW ∧ u ∉ prevUrls knownW eW.name then 1
          else 0) ∧
      (∀ u : String,
        (process_endpoints_change cfgW eW knownW).2.count
            (DiscoveryCommand.RemoveWorker u) =
          if u ∈ prevUrls knownW eW.name ∧ u ∉ computeNewUrls cfgW eW then 1
          else 0) ∧
      (∀ c ∈ (process_endpoints_change cfgW eW knownW).2,
        (∃ u, (u ∈ computeNewUrls cfgW eW ∧ u ∉ prevUrls knownW eW.name) ∧
          c = DiscoveryCommand.AddWorker u) ∨
        (∃ u, (u ∈ prevUrls knownW eW.name ∧ u ∉ computeNewUrls cfgW eW) ∧
          c = DiscoveryCommand.RemoveWorker u)) ∧
      (process_endpoints_change cfgW eW knownW).1 eW.name =
        some ⟨computeNewUrls cfgW eW⟩) ∧
    (prevUrls (runDiscovery cfgW
        (esW.map (fun p => fullStateEvent p.1 p.2)) knownW).1 "g" =
      (esW.map (fun p => computeNewUrls cfgW p.2)).getLastD
        (prevUrls knownW "g") ∧
      (runDiscovery cfgW (esW.map (fun p => fullStateEvent p.1 p.2))
          knownW).2.foldl applyCommand (prevUrls knownW "g").toFinset =
        (prevUrls (runDiscovery cfgW
          (esW.map (fun p => fullStateEvent p.1 p.2)) knownW).1 "g").toFinset) :=
  ⟨by decide, by decide,
   discovery_diff_correct.1 cfgW eW knownW (by decide),
   discovery_diff_correct.2 cfgW esW "g" knownW (by decide)⟩

/-- C2: on a Deleted event for a group present in the known state, the
driver emits exactly one RemoveWorker for every URL the group owned and
removes the group from the known state. -/
theorem delete_event_removes_group (cfg : K8sDiscoveryConfig)
    (e : Endpoints) (known : KnownEndpoints) (st : EndpointState)
    (h : known e.name = some st) :
    (processWatchEvent cfg (WatchEvent.Deleted e) known).2 =
      st.urls.map DiscoveryCommand.RemoveWorker ∧
    (st.urls.Nodup → ∀ u : String,
      (processWatchEvent cfg (WatchEvent.Deleted e) known).2.count
          (DiscoveryCommand.RemoveWorker u) =
        if u ∈ st.urls then 1 else 0) ∧
    (∀ c ∈ (processWatchEvent cfg (WatchEvent.Deleted e) known).2,
      ∃ u ∈ st.urls, c = DiscoveryCommand.RemoveWorker u) ∧
    (processWatchEvent cfg (WatchEvent.Deleted e) known).1 e.name = none := by
  have hred : processWatchEvent cfg (WatchEvent.Deleted e) known =
      match known e.name with
      | some st =>
        (fun n => if n = e.name then none else known n,
         st.urls.map DiscoveryCommand.RemoveWorker)
      | none => (known, []) := rfl
  have heq : processWatchEvent cfg (WatchEvent.Deleted e) known =
      (fun n => if n = e.name then none else known n,
       st.urls.map DiscoveryCommand.RemoveWorker) := by
    rw [hred, h]
  refine ⟨by rw [heq], ?_, ?_, ?_⟩
  · intro hnd u
    rw [heq]
    rw [List.count_map_of_injective _ _ removeWorker_injective,
      List.count_eq_of_nodup hnd]
  · intro c hc
    rw [heq] at hc
    rcases List.mem_map.mp hc with ⟨u, hu, rfl⟩
    exact ⟨u, hu, rfl⟩
  · rw [heq]
    exact if_pos rfl

/-- Witness for C2 at a concrete group, event and known state. -/
theorem delete_event_removes_group_witness :
    knownW eW.name = some stW ∧
    ((processWatchEvent cfgW (WatchEvent.Deleted eW) knownW).2 =
      stW.urls.map DiscoveryCommand.RemoveWorker ∧
    (stW.urls.Nodup → ∀ u : String,
      (processWatchEvent cfgW (WatchEvent.Deleted eW) knownW).2.count
          (DiscoveryCommand.RemoveWorker u) =
        if u ∈ stW.urls then 1 else 0) ∧
    (∀ c ∈ (processWatchEvent cfgW (WatchEvent.Deleted eW) knownW).2,
      ∃ u ∈ stW.urls, c = DiscoveryCommand.RemoveWorker u) ∧
    (processWatchEvent cfgW (WatchEvent.Deleted eW) knownW).1 eW.name = none) :=
  ⟨by decide, delete_event_removes_group cfgW eW knownW stW (by decide)⟩

/-- The worker-path normalisation as the spec words it: the empty path
stays empty, a path already starting with '/' is kept unchanged, any
other non-empty path gets '/' prepended. -/
def specNormalizedPath (wp : String) : String :=
  if wp = "" then wp
  else if startsWithSlash wp then wp
  else "/" ++ wp

theorem isEmpty_false_of_ne {wp : String} (h : wp ≠ "") :
    wp.isEmpty = false := by
  cases h' : wp.isEmpty
  · rfl
  · exact absurd ((String.isEmpty_iff wp).mp h') h

theorem startsWithSlash_prepend (wp : String) :
    startsWithSlash ("/" ++ wp) = true := by
  have hdata : ("/" ++ wp).data = '/' :: wp.data := by
    rw [String.data_append]; rfl
  unfold startsWithSlash
  rw [hdata]
  rfl

theorem normalizeWorkerPath_empty : normalizeWorkerPath "" = "" := by
  decide

theorem normalizeWorkerPath_of_slash {wp : String}
    (h : startsWithSlash wp = true) : normalizeWorkerPath wp = wp := by
  unfold normalizeWorkerPath
  rw [h, Bool.or_true, if_pos rfl]

theorem normalizeWorkerPath_of_ne {wp : String} (h1 : wp ≠ "")
    (h2 : startsWithSlash wp = false) :
    normalizeWorkerPath wp = "/" ++ wp := by
  unfold normalizeWorkerPath
  rw [isEmpty_false_of_ne h1, h2]
  rfl

theorem normalize_eq_spec (wp : String) :
    normalizeWorkerPath wp = specNormalizedPath wp := by
  by_cases h1 : wp = ""
  · subst h1
    rw [normalizeWorkerPath_empty]
    rfl
  · unfold specNormalizedPath
    rw [if_neg h1]
    cases h2 : startsWithSlash wp
    · rw [if_neg Bool.false_ne_true]
      exact normalizeWorkerPath_of_ne h1 h2
    · rw [if_pos rfl]
      exact normalizeWorkerPath_of_slash h2

theorem startsWithSlash_normalize (wp : String) :
    startsWithSlash (normalizeWorkerPath wp) = true ↔ wp ≠ "" := by
  constructor
  · intro h heq
    subst heq
    rw [normalizeWorkerPath_empty] at h
    exact Bool.false_ne_true h
  · intro h1
    cases h2 : startsWithSlash wp
    · rw [normalizeWorkerPath_of_ne h1 h2]
      exact startsWithSlash_prepend wp
    · rw [normalizeWorkerPath_of_slash h2]
      exact h2

/-- C3: the rendered worker URL is protocol://ip:port followed by the
worker path normalised to start with '/' exactly when it is non-empty:
the empty path is kept empty, a path already starting with '/' is kept
as is, and any other path gets '/' prepended. -/
theorem worker_url_format (cfg : K8sDiscoveryConfig) (ip : String)
    (p : Int) :
    renderWorkerUrl cfg ip p =
      cfg.protocol ++ "://" ++ ip ++ ":" ++ toString p
        ++ specNormalizedPath cfg.worker_path ∧
    (startsWithSlash (normalizeWorkerPath cfg.worker_path) = true ↔
      cfg.worker_path ≠ "") ∧
    (cfg.worker_path = "" → normalizeWorkerPath cfg.worker_path = "") ∧
    (startsWithSlash cfg.worker_path = true →
      normalizeWorkerPath cfg.worker_path = cfg.worker_path) ∧
    (cfg.worker_path ≠ "" → startsWithSlash cfg.worker_path = false →
      normalizeWorkerPath cfg.worker_path = "/" ++ cfg.worker_path) := by
  refine ⟨?_, startsWithSlash_normalize cfg.worker_path, ?_, ?_, ?_⟩
  · unfold renderWorkerUrl
    rw [normalize_eq_spec]
  · intro h
    rw [h]
    exact normalizeWorkerPath_empty
  · intro h
    exact normalizeWorkerPath_of_slash h
  · intro h1 h2
    exact normalizeWorkerPath_of_ne h1 h2

/-- A concrete configuration with a named port filter and a bare worker
path. -/
def cfgW2 : K8sDiscoveryConfig :=
  { label_selector := "sgl-role=llm-worker"
    port_name := some "http"
    protocol := "https"
    worker_path := "x" }

/-- Witness for C3 at a concrete configuration, IP and port. -/
theorem worker_url_format_witness :
    renderWorkerUrl cfgW2 "1.2.3.4" 9000 = "https://1.2.3.4:9000/x" ∧
    (renderWorkerUrl cfgW2 "1.2.3.4" 9000 =
      cfgW2.protocol ++ "://" ++ "1.2.3.4" ++ ":" ++ toString (9000 : Int)
        ++ specNormalizedPath cfgW2.worker_path ∧
    (startsWithSlash (normalizeWorkerPath cfgW2.worker_path) = true ↔
      cfgW2.worker_path ≠ "") ∧
    (cfgW2.worker_path = "" → normalizeWorkerPath cfgW2.worker_path = "") ∧
    (startsWithSlash cfgW2.worker_path = true →
      normalizeWorkerPath cfgW2.worker_path = cfgW2.worker_path) ∧
    (cfgW2.worker_path ≠ "" → startsWithSlash cfgW2.worker_path = false →
      normalizeWorkerPath cfgW2.worker_path = "/" ++ cfgW2.worker_path)) :=
  ⟨by decide, worker_url_format cfgW2 "1.2.3.4" 9000⟩

theorem mem_subsetUrls {cfg : K8sDiscoveryConfig} {s : EndpointSubset}
    {u : String} :
    u ∈ subsetUrls cfg s ↔
      ∃ a ∈ addressesList s, ∃ ip, a.ip = some ip ∧
        ∃ port ∈ portsList s,
          portNameAccepts cfg.port_name port.name = true ∧
          ∃ p : Int, port.port = some p ∧ u = renderWorkerUrl cfg ip p := by
  unfold subsetUrls
  rw [List.mem_flatMap]
  constructor
  · rintro ⟨a, ha, hu⟩
    refine ⟨a, ha, ?_⟩
    cases hip : a.ip with
    | none => rw [hip] at hu; simp at hu
    | some ip =>
      rw [hip, List.mem_filterMap] at hu
      obtain ⟨port, hport, hsome⟩ := hu
      by_cases hacc : portNameAccepts cfg.port_name port.name = true
      · rw [if_pos hacc] at hsome
        cases hpp : port.port with
        | none => rw [hpp] at hsome; simp at hsome
        | some p =>
          rw [hpp] at hsome
          rw [Option.some_inj] at hsome
          exact ⟨ip, rfl, port, hport, hacc, p, hpp, hsome.symm⟩
      · rw [if_neg hacc] at hsome
        simp at hsome
  · rintro ⟨a, ha, ip, hip, port, hport, hacc, p, hpp, rfl⟩
    refine ⟨a, ha, ?_⟩
    rw [hip, List.mem_filterMap]
    exact ⟨port, hport, by rw [if_pos hacc, hpp]⟩

theorem mem_computeNewUrls {cfg : K8sDiscoveryConfig} {e : Endpoints}
    {u : String} :
    u ∈ computeNewUrls cfg e ↔
      ∃ s ∈ subsetsList e, u ∈ subsetUrls cfg s := by
  unfold computeNewUrls
  rw [List.mem_dedup, List.mem_flatMap]

/-- C4: with port_name configured, a port passes the filter exactly when
it carries that name (so a URL is contributed only through ports whose
name does not differ from port_name; differing or absent names are
skipped); with no port_name configured every port passes; and a URL is
in the computed set exactly when some subset address with an IP and some
passing port with a port number renders it. -/
theorem port_filtering (cfg : K8sDiscoveryConfig) (e : Endpoints) :
    (∀ pn : String, cfg.port_name = some pn →
      ∀ port : EndpointPort,
        (portNameAccepts cfg.port_name port.name = true ↔
          port.name = some pn)) ∧
    (cfg.port_name = none → ∀ port : EndpointPort,
      portNameAccepts cfg.port_name port.name = true) ∧
    (∀ u : String, u ∈ computeNewUrls cfg e ↔
      ∃ s ∈ subsetsList e, ∃ a ∈ addressesList s, ∃ ip, a.ip = some ip ∧
        ∃ port ∈ portsList s,
          portNameAccepts cfg.port_name port.name = true ∧
          ∃ p : Int, port.port = some p ∧ u = renderWorkerUrl cfg ip p) := by
  refine ⟨?_, ?_, ?_⟩
  · intro pn h port
    rw [h]
    unfold portNameAccepts
    cases port.name with
    | none => simp
    | some n => simp
  · intro h port
    rw [h]
    rfl
  · intro u
    rw [mem_computeNewUrls]
    constructor
    · rintro ⟨s, hs, hu⟩
      exact ⟨s, hs, mem_subsetUrls.mp hu⟩
    · rintro ⟨s, hs, hu⟩
      exact ⟨s, hs, mem_subsetUrls.mpr hu⟩

/-- A concrete endpoint group with named, differently named and unnamed
ports. -/
def eW3 : Endpoints :=
  { name := "g"
    subsets := some [{ addresses := some [{ ip := some "1.2.3.4" }]
                       ports := some [{ name := some "http", port := some 8080 },
                                      { name := some "metrics", port := some 9090 },
                                      { name := none, port := some 7070 }] }] }

/-- Witness for C4 at a concrete configuration and ports: the filter
accepts the port named http and rejects the differently named one. -/
theorem port_filtering_witness :
    cfgW2.port_name = some "http" ∧
    (portNameAccepts cfgW2.port_name (some "http") = true ↔
      (some "http" : Option String) = some "http") ∧
    (portNameAccepts cfgW2.port_name (some "metrics") = true ↔
      (some "metrics" : Option String) = some "http") ∧
    ("https://1.2.3.4:8080/x" ∈ computeNewUrls cfgW2 eW3 ↔
      ∃ s ∈ subsetsList eW3, ∃ a ∈ addressesList s, ∃ ip, a.ip = some ip ∧
        ∃ port ∈ portsList s,
          portNameAccepts cfgW2.port_name port.name = true ∧
          ∃ p : Int, port.port = some p ∧
            "https://1.2.3.4:8080/x" = renderWorkerUrl cfgW2 ip p) :=
  ⟨by decide,
   (port_filtering cfgW2 eW3).1 "http" (by decide) ⟨some "http", some 8080⟩,
   (port_filtering cfgW2 eW3).1 "http" (by decide) ⟨some "metrics", some 9090⟩,
   (port_filtering cfgW2 eW3).2.2 "https://1.2.3.4:8080/x"⟩

/-- C10: within one endpoints change event the command list is exactly
the AddWorker commands for the newcomers followed by the RemoveWorker
commands for the departers; no RemoveWorker of the event precedes any
AddWorker of the event. -/
theorem event_commands_order (cfg : K8sDiscoveryConfig) (e : Endpoints)
    (known : KnownEndpoints) :
    (process_endpoints_change cfg e known).2 =
      ((computeNewUrls cfg e).filter
          (fun u => decide (u ∉ prevUrls known e.name))).map
          DiscoveryCommand.AddWorker
        ++ ((prevUrls known e.name).filter
          (fun u => decide (u ∉ computeNewUrls cfg e))).map
          DiscoveryCommand.RemoveWorker ∧
    addsBeforeRemoves (process_endpoints_change cfg e known).2 = true := by
  refine ⟨process_endpoints_change_snd cfg e known, ?_⟩
  rw [process_endpoints_change_snd]
  exact addsBeforeRemoves_append _ _

/-- C5 counterexample: when the watch stream ends cleanly (Ok return of
start_k8s_discovery) the supervising loop of run_k8s_discovery_task
restarts the driver immediately, with a backoff of 0 seconds, not the
10 second backoff the claim states for that case. -/
theorem clean_end_backoff_not_ten :
    supervisorBackoffSecs DriverOutcome.streamEnded = 0 ∧
    ¬ supervisorBackoffSecs DriverOutcome.streamEnded = 10 := by
  decide

/-- C5 (amended): when a driver run errors the supervisor restarts it
after a 10 second backoff; when the stream ends cleanly it restarts it
immediately with no backoff. Every restarted run begins from the fresh
empty known-endpoints state, so its first full-state event for a group
emits AddWorker for every computed URL and no RemoveWorker; and the
command channel carries only AddWorker and RemoveWorker values, never a
failure. -/
theorem supervisor_restart_behavior :
    (∀ m : String,
      supervisorBackoffSecs (DriverOutcome.streamErrored m) = 10) ∧
    supervisorBackoffSecs DriverOutcome.streamEnded = 0 ∧
    (∀ (cfg : K8sDiscoveryConfig) (runs : List DriverRunInput),
      superviseRuns cfg runs =
        runs.map (fun r => ((runDiscovery cfg r.events emptyKnown).2,
          supervisorBackoffSecs r.outcome))) ∧
    (∀ (cfg : K8sDiscoveryConfig) (e : Endpoints),
      (process_endpoints_change cfg e emptyKnown).2 =
        (computeNewUrls cfg e).map DiscoveryCommand.AddWorker) ∧
    (∀ (cfg : K8sDiscoveryConfig) (events : List WatchEvent)
        (c : DiscoveryCommand),
      c ∈ (startDiscoveryRun cfg events).2 →
      isAddCmd c = true ∨ isRemoveCmd c = true) := by
  refine ⟨fun _ => rfl, rfl, fun _ _ => rfl, ?_, ?_⟩
  · intro cfg e
    rw [process_endpoints_change_snd]
    have h0 : prevUrls emptyKnown e.name = [] := rfl
    rw [h0]
    simp [List.filter_eq_self]
  · intro cfg events c _
    cases c
    · exact Or.inl rfl
    · exact Or.inr rfl

/-- Witness for C5's amended theorem at a concrete run. -/
theorem supervisor_restart_behavior_witness :
    DiscoveryCommand.AddWorker "http://10.0.0.1:80" ∈
      (startDiscoveryRun cfgW [WatchEvent.Added eW]).2 ∧
    (isAddCmd (DiscoveryCommand.AddWorker "http://10.0.0.1:80") = true ∨
      isRemoveCmd (DiscoveryCommand.AddWorker "http://10.0.0.1:80") = true) :=
  ⟨by decide,
   supervisor_restart_behavior.2.2.2.2 cfgW [WatchEvent.Added eW]
     (DiscoveryCommand.AddWorker "http://10.0.0.1:80") (by decide)⟩

/-- C6: add_worker answers 400 without invoking add when no url query
parameter is present; with one it invokes add on that url and answers
200 with the success message or 400 with the failure reason. -/
theorem add_worker_contract (query : String → Option String)
    (routerAdd : String → Except String String) :
    (query "url" = none →
      add_worker query routerAdd =
        (⟨400, "Worker URL required. Provide 'url' query parameter"⟩,
         none)) ∧
    (∀ u : String, query "url" = some u →
      (add_worker query routerAdd).2 = some u ∧
      (∀ msg, routerAdd u = Except.ok msg →
        (add_worker query routerAdd).1 = ⟨200, msg⟩) ∧
      (∀ err, routerAdd u = Except.error err →
        (add_worker query routerAdd).1 = ⟨400, err⟩)) := by
  constructor
  · intro h
    unfold add_worker
    rw [h]
  · intro u h
    have hstep : add_worker query routerAdd =
        match routerAdd u with
        | Except.ok message => (⟨200, message⟩, some u)
        | Except.error e => (⟨400, e⟩, some u) := by
      unfold add_worker
      rw [h]
    refine ⟨?_, ?_, ?_⟩
    · rw [hstep]
      cases routerAdd u <;> rfl
    · intro msg hm
      rw [hstep, hm]
    · intro err he
      rw [hstep, he]

/-- A concrete query map carrying a url parameter. -/
def qW : String → Option String :=
  fun k => if k = "url" then some "http://w:8000" else none

/-- A concrete router add operation that succeeds. -/
def addOkW : String → Except String String :=
  fun u => Except.ok ("Successfully added worker: " ++ u)

/-- Witness for C6 at a concrete query and add operation. -/
theorem add_worker_contract_witness :
    qW "url" = some "http://w:8000" ∧
    ((add_worker qW addOkW).2 = some "http://w:8000" ∧
      (∀ msg, addOkW "http://w:8000" = Except.ok msg →
        (add_worker qW addOkW).1 = ⟨200, msg⟩) ∧
      (∀ err, addOkW "http://w:8000" = Except.error err →
        (add_worker qW addOkW).1 = ⟨400, err⟩)) :=
  ⟨by decide, (add_worker_contract qW addOkW).2 "http://w:8000" (by decide)⟩

/-- C7: remove_worker answers 400 without invoking remove when no url
query parameter is present; with one it invokes remove on that url and
answers 200 unconditionally (its response does not depend on the
registry at all: the handler takes no registry state). -/
theorem remove_worker_contract (query : String → Option String) :
    (query "url" = none → remove_worker query = (⟨400, ""⟩, none)) ∧
    (∀ u : String, query "url" = some u →
      remove_worker query =
        (⟨200, "Successfully removed worker: " ++ u⟩, some u)) := by
  constructor
  · intro h
    unfold remove_worker
    rw [h]
  · intro u h
    unfold remove_worker
    rw [h]

/-- Witness for C7 at a concrete query. -/
theorem remove_worker_contract_witness :
    qW "url" = some "http://w:8000" ∧
    remove_worker qW =
      (⟨200, "Successfully removed worker: " ++ "http://w:8000"⟩,
       some "http://w:8000") :=
  ⟨by decide, (remove_worker_contract qW).2 "http://w:8000" (by decide)⟩

theorem drainPayload_complete (payload : PayloadStream)
    (h : ∀ c ∈ payload, ∃ b, c = Except.ok b) :
    drainPayload payload = payload.length := by
  induction payload with
  | nil => rfl
  | cons c rest ih =>
    obtain ⟨b, rfl⟩ := h c (by simp)
    show 1 + drainPayload rest = rest.length + 1
    rw [ih (fun x hx => h x (by simp [hx]))]
    omega

/-- C8: a request matching no registered route is dispatched to
sink_handler, which drains the body (all of it when no chunk errors)
and answers 404. -/
theorem unmatched_routes (m : Method) (path : String)
    (payload : PayloadStream) (h : matchesRoute m path = false) :
    routeRequest m path payload =
      RouteOutcome.sink (drainPayload payload) ⟨404, ""⟩ ∧
    ((∀ c ∈ payload, ∃ b, c = Except.ok b) →
      drainPayload payload = payload.length) := by
  constructor
  · have hf : registeredRoutes.find?
        (fun r => r.1 == m && r.2 == path) = none :=
      List.find?_eq_none.mpr (List.any_eq_false.mp h)
    unfold routeRequest
    rw [hf]
    rfl
  · exact drainPayload_complete payload

/-- Witness for C8 at a concrete unregistered method and path. -/
theorem unmatched_routes_witness :
    matchesRoute Method.GET "/nope" = false ∧
    (routeRequest Method.GET "/nope" [Except.ok "ab", Except.ok "cd"] =
      RouteOutcome.sink
        (drainPayload [Except.ok "ab", Except.ok "cd"]) ⟨404, ""⟩ ∧
    ((∀ c ∈ ([Except.ok "ab", Except.ok "cd"] : PayloadStream),
        ∃ b, c = Except.ok b) →
      drainPayload [Except.ok "ab", Except.ok "cd"] =
        ([Except.ok "ab", Except.ok "cd"] : PayloadStream).length)) :=
  ⟨by decide,
   unmatched_routes Method.GET "/nope" [Except.ok "ab", Except.ok "cd"]
     (by decide)⟩

/-- C9: startup sets both the JSON body limit and the raw payload limit
to max_payload_size; the JSON error handler turns every JSON payload
error into a 413 response, and a body over the limit is rejected with
status 413 on both paths. -/
theorem payload_limits (maxPayloadSize : Nat) :
    (startupAppLimits maxPayloadSize).jsonLimit = maxPayloadSize ∧
    (startupAppLimits maxPayloadSize).payloadLimit = maxPayloadSize ∧
    (∀ err : String, (json_error_handler err).status = 413) ∧
    (∀ (isJson : Bool) (bodySize : Nat), bodySize > maxPayloadSize →
      ∃ r : HttpResponse,
        frameworkLimitCheck (startupAppLimits maxPayloadSize) isJson
          bodySize = some r ∧ r.status = 413) := by
  refine ⟨rfl, rfl, fun _ => rfl, ?_⟩
  intro isJson n h
  cases isJson
  · refine ⟨⟨413, "Payload too large"⟩, ?_, rfl⟩
    unfold frameworkLimitCheck startupAppLimits
    simp [h]
  · refine ⟨json_error_handler "payload overflow", ?_, rfl⟩
    unfold frameworkLimitCheck startupAppLimits
    simp [h]

/-- Witness for C9 at a concrete limit and body size. -/
theorem payload_limits_witness :
    6 > 5 ∧
    (∃ r : HttpResponse,
      frameworkLimitCheck (startupAppLimits 5) false 6 = some r ∧
        r.status = 413) :=
  ⟨by decide, (payload_limits 5).2.2.2 false 6 (by decide)⟩

end SglRouter
